import Mathlib

/-!
# Verification of the kinex scoring and enrichment core

A shallow embedding, in Lean 4, of the algorithmic core of the `kinex`
package (`src/kinex/sequence.py`, `src/kinex/kinex.py`,
`src/kinex/table2x2.py`, `src/kinex/enrichment.py`, `src/kinex/score.py`),
together with theorems settling the specification claims about it.

Modelling conventions:
- Python strings are `List Char`; `str.upper` is modelled character-wise
  (the inputs are ASCII amino-acid letters and markers).
- Python floats are modelled as `ℚ`; `numpy.log2`, which has no exact
  rational counterpart, is abstracted as a caller-supplied function
  `ℚ → ℚ` bundled with the scoring data.
- pandas DataFrames indexed by kinase name are association lists
  `List (String × _)`; index alignment (`DataFrame.add` with
  `fill_value=0`, `reindex`, `groupby`) is modelled on the key/value
  mapping; the (sorted) ordering pandas gives the resulting index is
  abstracted, no claim depends on it.
- All Python errors in this core are `ValueError`s with distinct
  messages; they are modelled as an error enumeration in `Except`.
-/

namespace Kinex

/-! ## Characters and strings -/

/-- The lower-case ASCII letters paired with their upper-case forms,
used to model Python `str.upper` on the alphabet this code handles. -/
def upPairs : List (Char × Char) :=
  [('a', 'A'), ('b', 'B'), ('c', 'C'), ('d', 'D'), ('e', 'E'), ('f', 'F'),
   ('g', 'G'), ('h', 'H'), ('i', 'I'), ('j', 'J'), ('k', 'K'), ('l', 'L'),
   ('m', 'M'), ('n', 'N'), ('o', 'O'), ('p', 'P'), ('q', 'Q'), ('r', 'R'),
   ('s', 'S'), ('t', 'T'), ('u', 'U'), ('v', 'V'), ('w', 'W'), ('x', 'X'),
   ('y', 'Y'), ('z', 'Z')]

/-- Upper-case one character, as Python `str.upper` does on ASCII. -/
def upChar (c : Char) : Char := ((upPairs.lookup c).getD c)

/-- Model of Python `str.upper` restricted to the ASCII inputs this
code receives. -/
def pyUpper (s : List Char) : List Char := s.map upChar

/-! ## Sequence model (`src/kinex/sequence.py`) -/

/-- `allowed_characters` from `sequence.py`. -/
def allowed_characters : List Char :=
  ['P', 'G', 'A', 'C', 'S', 'T', 'V', 'I', 'L', 'M', 'F', 'Y', 'W', 'H',
   'K', 'R', 'Q', 'N', 'D', 'E', 's', 't', 'y', 'X', '_', '*']

/-- `is_central_sequence_valid`: the middle character must be one of
S/T/Y (either case) and every character allowed, asterisk excluded.
Python indexes the middle unconditionally; on the empty string (which
never reaches this check) the model returns `false`. -/
def is_central_sequence_valid (s : List Char) : Bool :=
  match s.get? (s.length / 2) with
  | none => false
  | some mid =>
      mid ∈ ['S', 'T', 'Y', 's', 't', 'y'] &&
      s.all (fun a => a ∈ allowed_characters.filter (fun x => x ≠ '*'))

/-- `get_valid_patterns`: an S/T/Y (either case) immediately followed by
the separator. -/
def get_valid_patterns (sep : List Char) : List (List Char) :=
  [['S'] ++ sep, ['T'] ++ sep, ['Y'] ++ sep, ['s'] ++ sep, ['t'] ++ sep, ['y'] ++ sep]

/-- Python `pat in s` on strings: `pat` occurs contiguously in `s`. -/
def isInfixOfL (pat : List Char) : List Char → Bool
  | [] => pat.isEmpty
  | c :: rest => pat.isPrefixOf (c :: rest) || isInfixOfL pat rest

/-- `is_separator_sequence_valid`: no doubled separator, at least one
valid acceptor pattern, and every character allowed. -/
def is_separator_sequence_valid (s sep : List Char) : Bool :=
  !isInfixOfL (sep ++ sep) s &&
  (get_valid_patterns sep).any (fun pat => isInfixOfL pat s) &&
  s.all (fun a => a ∈ allowed_characters)

/-- Python `str.find`: index of the first occurrence of `pat`, `-1` when
absent (mirrors the sentinel the caller compares against). -/
def findSub (pat : List Char) : List Char → Int
  | [] => if pat.isPrefixOf ([] : List Char) then 0 else -1
  | c :: rest =>
      if pat.isPrefixOf (c :: rest) then 0
      else
        let r := findSub pat rest
        if r = -1 then -1 else r + 1

/-- Splitting worker, structurally recursive on a character budget so
that the definition reduces by evaluation: each step consumes at least
one character of the string, so a budget of the string's length is
enough and the `0` fallback (which returns the rest unsplit) is never
reached from `splitOnSeq`. -/
def splitOnSeqAux (sep : List Char) : ℕ → List Char → List (List Char)
  | _, [] => [[]]
  | 0, s => [s]
  | fuel + 1, c :: rest =>
      if !sep.isEmpty && sep.isPrefixOf (c :: rest) then
        [] :: splitOnSeqAux sep fuel ((c :: rest).drop sep.length)
      else
        match splitOnSeqAux sep fuel rest with
        | [] => [[c]]
        | hd :: tl => (c :: hd) :: tl

/-- Python `str.split(sep)` for a non-empty separator: leftmost,
non-overlapping matches. -/
def splitOnSeq (sep : List Char) (s : List Char) : List (List Char) :=
  splitOnSeqAux sep s.length s

/-- `SequenceSeparator`: the recognized phospho-acceptor markers, in
enum declaration order. -/
inductive Separator where
  | asterisk
  | ph
  deriving DecidableEq, Repr

/-- The marker string of each separator (`"*"` and `"(ph)"`). -/
def sepChars : Separator → List Char
  | .asterisk => ['*']
  | .ph => ['(', 'p', 'h', ')']

/-- `SequenceType`: the kinase family of the acceptor residue. -/
inductive SequenceType where
  | SER_THR
  | TYR
  deriving DecidableEq, Repr

/-- The error taxonomy of the core: each constructor stands for one of
the distinct `ValueError` messages raised in `sequence.py`/`kinex.py`. -/
inductive KinexError where
  /-- "Invalid sequence" -/
  | invalidSequence
  /-- "Method ... is not supported. ..." -/
  | unsupportedMethod
  /-- "Unsupported sequence type. Supported types: SER, THR, TYR" -/
  | unsupportedSequenceType
  /-- "Unsupported sequence format. Supported formats: *, (ph) and central" -/
  | unsupportedSequenceFormat
  deriving DecidableEq, Repr

/-- Equality of `Except` results is decidable when it is on both
sides, so concrete runs of the model can be checked by evaluation. -/
instance exceptDecEq {ε α : Type} [DecidableEq ε] [DecidableEq α] :
    DecidableEq (Except ε α) := fun x y =>
  match x, y with
  | .ok a, .ok b =>
      if h : a = b then isTrue (by rw [h]) else isFalse (by simp [h])
  | .error a, .error b =>
      if h : a = b then isTrue (by rw [h]) else isFalse (by simp [h])
  | .ok _, .error _ => isFalse (by simp)
  | .error _, .ok _ => isFalse (by simp)

/-- `get_sequence_type`: classify the acceptor residue, upper-cased,
into a kinase family. -/
def get_sequence_type (c : Char) : Except KinexError SequenceType :=
  if upChar c ∈ ['S', 'T'] then .ok .SER_THR
  else if upChar c ∈ ['Y'] then .ok .TYR
  else .error .unsupportedSequenceType

/-- A classified sequence: `SeparatorSequence` (with its list of
preprocessed sub-sequences) or `CentralSequence`. -/
inductive SequenceObject where
  | separator (s : List Char) (sep : Separator) (t : SequenceType)
      (sequences : List (List Char))
  | central (s : List Char) (t : SequenceType)
  deriving DecidableEq, Repr

/-- `get_sequence_object`: try each separator in enum order, accepting
it only when found at a position strictly greater than 0; otherwise an
odd-length string is a central sequence; otherwise the format is
unsupported. -/
def get_sequence_object (s : List Char) : Except KinexError SequenceObject :=
  let p1 := findSub (sepChars .asterisk) s
  if p1 > 0 then
    match get_sequence_type (s.getD (p1 - 1).toNat ' ') with
    | .ok t => .ok (.separator s .asterisk t [])
    | .error e => .error e
  else
    let p2 := findSub (sepChars .ph) s
    if p2 > 0 then
      match get_sequence_type (s.getD (p2 - 1).toNat ' ') with
      | .ok t => .ok (.separator s .ph t [])
      | .error e => .error e
    else if s.length % 2 = 1 then
      match get_sequence_type (s.getD (s.length / 2) ' ') with
      | .ok t => .ok (.central s t)
      | .error e => .error e
    else .error .unsupportedSequenceFormat

/-- Python `repr` of a list of strings, e.g. `['GRNs', 'PVQA']`: this is
what the f-string in `SeparatorSequence.preprocess_sequence` interpolates
a list slice into. The fragments contain no quote characters. -/
def pyReprStrList (l : List (List Char)) : List Char :=
  ['['] ++ (List.intercalate [',', ' ']
    (l.map (fun s => ['\x27'] ++ s ++ ['\x27']))) ++ [']']

/-- Lower-case the final character of a fragment (`item[:-1] + item[-1].lower()`).
Python raises on an empty fragment's `item[-1]`; the model leaves an
empty fragment unchanged (a doubled/leading separator is the only way to
produce one). -/
def lowerLast (s : List Char) : List Char :=
  match s.getLast? with
  | none => s
  | some c => s.dropLast ++ [c.toLower]

/-- `SeparatorSequence.preprocess_sequence`: split on the marker,
lower-case the last residue of every fragment but the last, then run the
candidate loop, which appends `f-string` renderings of the two list
slices joined by the marker whenever they validate (the loop reads and
extends the same list, which the fold threads faithfully). -/
def preprocess_sequence (s : List Char) (sep : List Char) : List (List Char) :=
  let sequences := splitOnSeq sep s
  let sequences := sequences.enum.map (fun p =>
    if p.1 ≠ sequences.length - 1 then lowerLast p.2 else p.2)
  (List.range (sequences.length - 1)).foldl (fun acc index =>
    let seq := pyReprStrList (acc.take (index + 1)) ++ sep ++
      pyReprStrList (acc.drop (index + 1))
    if is_separator_sequence_valid seq sep then acc ++ [seq] else acc)
    sequences

/-- `preprocess_sequence` dispatched on the object
(`CentralSequence.preprocess_sequence` is a no-op). -/
def preprocessObj : SequenceObject → SequenceObject
  | .separator s sep t _ => .separator s sep t (preprocess_sequence s (sepChars sep))
  | .central s t => .central s t

/-- `validate_sequence`: a separator sequence fails when its
preprocessed list is empty; a central sequence fails when
`is_central_sequence_valid` rejects it. -/
def validateObj : SequenceObject → Except KinexError Unit
  | .separator _ _ _ sequences =>
      if sequences.length = 0 then .error .invalidSequence else .ok ()
  | .central s _ =>
      if is_central_sequence_valid s then .ok () else .error .invalidSequence

/-! ## Token extraction (`Sequence.get_columns_list`) -/

/-- The position window of each kinase family, as set in
`get_columns_list` (`(-5, 4)` for Ser/Thr, `(-5, 5)` for Tyr). -/
def columnsRange : SequenceType → Int × Int
  | .SER_THR => (-5, 4)
  | .TYR => (-5, 5)

/-- One iteration of the `for part in parts` loop of `get_columns_list`:
part 0 is reversed and positions are `-(i+1)`, every later part keeps
its order with positions `i+1`; `_`/`X` are skipped and only positions
inside the window are emitted. A token `f"{pos}{aminoacid}"` is the pair
of its position and residue. -/
def tokensOfPart (partId : Nat) (range : Int × Int) (part : List Char) :
    List (Int × Char) :=
  (if partId = 0 then part.reverse else part).enum.filterMap (fun p =>
    if p.2 = '_' ∨ p.2 = 'X' then none
    else
      let pos : Int := if partId = 0 then -((p.1 : Int) + 1) else (p.1 : Int) + 1
      if range.1 ≤ pos ∧ pos ≤ range.2 then some (pos, p.2) else none)

/-- `get_columns_list` over an already-split sequence. -/
def get_columns_list (t : SequenceType) (parts : List (List Char)) :
    List (Int × Char) :=
  (parts.enum.map (fun p => tokensOfPart p.1 (columnsRange t) p.2)).flatten

/-- `SeparatorSequence.get_split_sequence`: split on the marker and drop
the acceptor (the last character of the first fragment). -/
def split_sequence_separator (s : List Char) (sep : List Char) : List (List Char) :=
  match splitOnSeq sep s with
  | [] => []
  | p0 :: rest => p0.dropLast :: rest

/-- `CentralSequence.get_split_sequence`: the halves on each side of the
middle character. -/
def split_sequence_central (s : List Char) : List (List Char) :=
  [s.take (s.length / 2), s.drop (s.length / 2 + 1)]

/-! ## PSSM scorer (`sequence.py:get_score`) -/

/-- A PSSM column name: a position/residue token (`f"{pos}{residue}"`)
or one of the favorability columns `"0S"`/`"0T"`. -/
inductive Col where
  | pos (p : Int) (a : Char)
  | fav0S
  | fav0T
  deriving DecidableEq, Repr

/-- A PSSM table: one row per kinase; a row is the map from column name
to weight (looking up a column pandas does not have raises, so callers
only request in-window columns). -/
abbrev PSSM : Type := List (String × (Col → ℚ))

/-- A per-candidate score table: kinase → raw score. -/
abbrev ScoreTable : Type := List (String × ℚ)

/-- `get_score(columns, pssm)`: per kinase, the product of the weights
of the requested columns (the `kinase` index column is non-numeric and
contributes no factor). -/
def pssm_get_score (columns : List Col) (pssm : PSSM) : ScoreTable :=
  pssm.map (fun kr => (kr.1, (columns.map kr.2).prod))

/-- `Sequence.get_sequence_scores` for both variants: per preprocessed
candidate (separator) or once (central), the token columns of the split
of the stored sequence string, plus the favorability column when
requested. -/
def get_sequence_scores (sobj : SequenceObject) (pssm : PSSM)
    (favorability : Bool) : List ScoreTable :=
  match sobj with
  | .separator s sep t sequences =>
      sequences.map (fun sequence =>
        let columns := (get_columns_list t (split_sequence_separator s (sepChars sep))).map
          (fun pc => Col.pos pc.1 pc.2)
        let columns :=
          if favorability then
            if isInfixOfL (['S'] ++ sepChars sep) (pyUpper sequence) then
              columns ++ [Col.fav0S]
            else if isInfixOfL (['T'] ++ sepChars sep) (pyUpper sequence) then
              columns ++ [Col.fav0T]
            else columns
          else columns
        pssm_get_score columns pssm)
  | .central s t =>
      let columns := (get_columns_list t (split_sequence_central s)).map
        (fun pc => Col.pos pc.1 pc.2)
      let columns :=
        if favorability then
          if (pyUpper s).getD ((pyUpper s).length / 2) ' ' = 'S' then
            columns ++ [Col.fav0S]
          else if (pyUpper s).getD ((pyUpper s).length / 2) ' ' = 'T' then
            columns ++ [Col.fav0T]
          else columns
        else columns
      [pssm_get_score columns pssm]

/-! ## Multi-site aggregation (`Kinex.get_score`, method dispatch) -/

/-- Value of a table at a kinase, `0` when the kinase is absent (the
alignment fill value of `DataFrame.add(…, fill_value=0)`). -/
def lookup0 (t : ScoreTable) (k : String) : ℚ := (t.lookup k).getD 0

/-- Keys of the left table followed by the new keys of the right one
(pandas sorts the union; the order is abstracted). -/
def unionKeys (k1 k2 : List String) : List String :=
  k1 ++ k2.filter (fun k => ¬ k1.contains k)

/-- `df1.add(df2, fill_value=0)`: align on the union of the kinase
indexes, treating a missing entry as `0`. -/
def dfAdd (t1 t2 : ScoreTable) : ScoreTable :=
  (unionKeys (t1.map Prod.fst) (t2.map Prod.fst)).map
    (fun k => (k, lookup0 t1 k + lookup0 t2 k))

/-- Elementwise `df / n`. -/
def dfDiv (t : ScoreTable) (n : ℚ) : ScoreTable :=
  t.map (fun p => (p.1, p.2 / n))

/-- `reduce(lambda df1, df2: df1.add(df2, fill_value=0), tables) / len(tables)`:
the `avg` aggregation.  Python `reduce` raises on an empty list; the
model returns the empty table there. -/
def aggregateAvg (tables : List ScoreTable) : ScoreTable :=
  match tables with
  | [] => []
  | t :: rest => dfDiv (rest.foldl dfAdd t) (tables.length : ℚ)

/-- Key list with duplicates removed, first occurrence kept (`groupby`
sorts the group keys; the order is abstracted). -/
def dedupKeys : List String → List String
  | [] => []
  | k :: rest => k :: dedupKeys (rest.filter (fun x => x ≠ k))
  termination_by l => l.length
  decreasing_by
    simp only [List.length_cons]
    exact Nat.lt_succ_of_le (List.length_filter_le _ _)

/-- Fold of a binary operation over a group's scores (groups coming from
`dedupKeys` are never empty; `0` is the unreachable default). -/
def foldGroup (op : ℚ → ℚ → ℚ) (vs : List ℚ) : ℚ :=
  match vs with
  | [] => 0
  | v :: rest => rest.foldl op v

/-- `pd.concat(tables).groupby(index).min()` / `.max()`: per kinase, the
minimum/maximum over all entries with that kinase. -/
def groupByOp (op : ℚ → ℚ → ℚ) (tables : List ScoreTable) : ScoreTable :=
  let all := tables.flatten
  (dedupKeys (all.map Prod.fst)).map (fun k =>
    (k, foldGroup op ((all.filter (fun p => p.1 = k)).map Prod.snd)))

/-! ## Percentile ranking (`Kinex.get_score`, ranking loop) -/

/-- Model of `bisect.bisect_left` under the scoring matrix's ascending
sortedness invariant: the leftmost insertion index of `x`, i.e. the
number of entries strictly below `x`. -/
def bisect_left (l : List ℚ) (x : ℚ) : ℕ := l.countP (fun y => y < x)

/-- The percentile assigned in the ranking loop:
`(bisect_left(matrix, log_score) + 1) * (100 / matrix_length)`. -/
def get_percentile (ref : List ℚ) (n : ℕ) (x : ℚ) : ℚ :=
  ((bisect_left ref x : ℚ) + 1) * (100 / (n : ℚ))

/-- One row of a ranking table. -/
structure Row where
  kinase : String
  score : ℚ
  log_score : ℚ
  percentile_score : ℚ
  deriving DecidableEq, Repr

/-- Stable insertion into a list sorted by `le`. -/
def insertBy (le : Row → Row → Bool) (x : Row) : List Row → List Row
  | [] => [x]
  | y :: rest => if le x y then x :: y :: rest else y :: insertBy le x rest

/-- Stable sort by `le` (`sort_values` on the percentile column;
pandas's default quicksort leaves tie order unspecified, the model picks
the stable order). -/
def sortBy (le : Row → Row → Bool) : List Row → List Row
  | [] => []
  | x :: rest => insertBy le x (sortBy le rest)

/-- The body of the ranking loop of `Kinex.get_score`: add the log2
score and the percentile against the family's scoring matrix, then sort
by percentile descending. -/
def rankTable (log2 : ℚ → ℚ) (matrix : String → List ℚ) (n : ℕ)
    (t : ScoreTable) : List Row :=
  sortBy (fun a b => b.percentile_score ≤ a.percentile_score)
    (t.map (fun p =>
      { kinase := p.1, score := p.2, log_score := log2 p.2,
        percentile_score := get_percentile (matrix p.1) n (log2 p.2) }))

/-! ## `Kinex.get_score` -/

/-- The read-only state of a `Kinex` session: the two PSSM tables, the
two reference scoring matrices (per kinase, kept sorted ascending) with
their stored row counts, and the log2 map (floats are modelled as `ℚ`,
so the real-valued `np.log2` is a parameter of the model). -/
structure KinexData where
  pssm_ser_thr : PSSM
  pssm_tyr : PSSM
  scoring_matrix_ser_thr : String → List ℚ
  scoring_matrix_ser_thr_length : ℕ
  scoring_matrix_tyr : String → List ℚ
  scoring_matrix_tyr_length : ℕ
  log2 : ℚ → ℚ

/-- The kinase family of a classified sequence object. -/
def objType : SequenceObject → SequenceType
  | .separator _ _ t _ => t
  | .central _ t => t

/-- `Kinex.get_score` after the length/method/upper-casing prologue:
classify, preprocess, validate, score per candidate, aggregate by
method, then rank each remaining table. -/
def scoreCore (data : KinexData) (s : List Char) (favorability : Bool)
    (method : String) : Except KinexError (List (List Row)) := do
  let sobj ← get_sequence_object s
  let sobj := preprocessObj sobj
  let _ ← validateObj sobj
  let (pssm, matrix, mlen) :=
    match objType sobj with
    | .SER_THR => (data.pssm_ser_thr, data.scoring_matrix_ser_thr,
        data.scoring_matrix_ser_thr_length)
    | .TYR => (data.pssm_tyr, data.scoring_matrix_tyr,
        data.scoring_matrix_tyr_length)
  let scores_results := get_sequence_scores sobj pssm favorability
  let scores_results :=
    match method with
    | "min" => [groupByOp min scores_results]
    | "max" => [groupByOp max scores_results]
    | "avg" => [aggregateAvg scores_results]
    | _ => scores_results
  .ok (scores_results.map (rankTable data.log2 matrix mlen))

/-- `Kinex.get_score`: reject sequences shorter than 3 characters, then
unsupported methods, upper-case the sequence unless phospho-priming is
enabled, and run the scoring pipeline. -/
def get_score (data : KinexData) (sequence : List Char)
    (phospho_priming favorability : Bool) (method : String) :
    Except KinexError (List (List Row)) :=
  if sequence.length < 3 then .error .invalidSequence
  else if method ∉ ["min", "max", "avg", "all"] then .error .unsupportedMethod
  else
    let sequence := if phospho_priming then sequence else pyUpper sequence
    scoreCore data sequence favorability method

/-! ## 2x2 contingency table (`src/kinex/table2x2.py`) -/

/-- The four cells of a 2x2 contingency table `[[a, b], [c, d]]`
(counts are ints in the callers; after the Haldane-Anscombe shift they
are floats, so the model uses `ℚ`). -/
structure Table2x2 where
  a : ℚ
  b : ℚ
  c : ℚ
  d : ℚ
  deriving DecidableEq, Repr

/-- `Table2x2.__init__`: when `shift_zeros` is set and any cell is
exactly zero, add `0.5` to all four cells; otherwise keep the cells. -/
def mkTable2x2 (a b c d : ℚ) (shift_zeros : Bool) : Table2x2 :=
  if shift_zeros ∧ (a = 0 ∨ b = 0 ∨ c = 0 ∨ d = 0) then
    ⟨a + 1/2, b + 1/2, c + 1/2, d + 1/2⟩
  else
    ⟨a, b, c, d⟩

/-- `Table2x2.odds_ratio`: `(a * d) / (b * c)` over the stored cells. -/
def odds_ratio (t : Table2x2) : ℚ := t.a * t.d / (t.b * t.c)

/-! ## Enrichment (`src/kinex/enrichment.py`) -/

/-- The per-direction site totals of an `Enrichment` accumulator (ints
while accumulating; `adjust_background_sites` can make the unregulated
total a half-integer, so the model uses `ℚ`). -/
structure EnrichmentTotals where
  total_upregulated : ℚ
  total_downregulated : ℚ
  total_unregulated : ℚ
  deriving DecidableEq, Repr

/-- `Enrichment.adjust_background_sites`: when the unregulated total is
zero, replace it by `min(total_upregulated, total_downregulated) / 2`. -/
def adjust_background_sites (e : EnrichmentTotals) : EnrichmentTotals :=
  if e.total_unregulated = 0 then
    { e with total_unregulated := min e.total_upregulated e.total_downregulated / 2 }
  else e

/-- The hit-count columns of one enrichment-table row (the claim about
reindexing concerns the counts; `reindex(…, fill_value=0)` zeroes every
column of an added row). -/
structure EnrichmentRow where
  upregulated : ℚ
  downregulated : ℚ
  unregulated : ℚ
  deriving DecidableEq, Repr

/-- The all-zero row `reindex` fills in for a missing kinase. -/
def zeroRow : EnrichmentRow := ⟨0, 0, 0⟩

/-- `Enrichment._reindex_missing_kinases`: extend the index by the known
kinases that are absent and give each row its existing value, or the
fill value for the added kinases (`Index.union` sorts; the order is
abstracted). -/
def reindex_missing_kinases (all_kinases : List String)
    (table : List (String × EnrichmentRow)) : List (String × EnrichmentRow) :=
  let missing := all_kinases.filter (fun k => ¬ (table.map Prod.fst).contains k)
  ((table.map Prod.fst) ++ missing).map (fun k => (k, (table.lookup k).getD zeroRow))

/-- A one-kinase session state with constant weight 2, a one-entry
reference distribution and the (exact) log2 values of the raw scores it
produces, used to evaluate the pipeline on concrete sequences. -/
def sampleData : KinexData where
  pssm_ser_thr := [("K", fun _ => 2)]
  pssm_tyr := [("K", fun _ => 2)]
  scoring_matrix_ser_thr := fun _ => [-1]
  scoring_matrix_ser_thr_length := 1
  scoring_matrix_tyr := fun _ => [-1]
  scoring_matrix_tyr_length := 1
  log2 := fun x => if x = 128 then 7 else if x = 64 then 6 else 0

/-! ## Helper lemmas -/

theorem lookup_mem {α β : Type} [BEq α] [LawfulBEq α] {l : List (α × β)} {a : α} {b : β}
    (h : l.lookup a = some b) : (a, b) ∈ l := by
  induction l with
  | nil => simp [List.lookup] at h
  | cons p t ih =>
    rcases p with ⟨pa, pb⟩
    simp only [List.lookup] at h
    by_cases hab : a == pa
    · simp only [hab] at h
      have hb : pb = b := by exact Option.some_injective _ h
      rw [eq_of_beq hab, ← hb]
      exact List.mem_cons_self _ _
    · simp only [Bool.not_eq_true] at hab
      simp only [hab] at h
      exact List.mem_cons_of_mem _ (ih h)

theorem upChar_idem (c : Char) : upChar (upChar c) = upChar c := by
  unfold upChar
  cases h : upPairs.lookup c with
  | none => simp [h]
  | some u =>
    simp only [h, Option.getD_some]
    have hmem : (c, u) ∈ upPairs := lookup_mem h
    have hall : upPairs.all (fun p => (upPairs.lookup p.2).isNone) = true := by decide
    rw [List.all_eq_true] at hall
    have := hall (c, u) hmem
    simp only at this
    cases h2 : upPairs.lookup u with
    | none => simp
    | some v => rw [h2] at this; simp at this

theorem pyUpper_idem (s : List Char) : pyUpper (pyUpper s) = pyUpper s := by
  unfold pyUpper
  rw [List.map_map]
  exact List.map_congr_left (fun c _ => upChar_idem c)

theorem pyUpper_length (s : List Char) : (pyUpper s).length = s.length :=
  List.length_map s upChar

/-- `List.lookup` on the self-keyed image of a key list. -/
theorem lookup_map_self {β : Type} (l : List String) (f : String → β) (k : String) :
    ((l.map (fun x => (x, f x))).lookup k) =
      if k ∈ l then some (f k) else none := by
  induction l with
  | nil => simp
  | cons x rest ih =>
    simp only [List.map_cons, List.lookup, List.mem_cons]
    by_cases hx : k = x
    · simp [hx]
    · have : (k == x) = false := beq_false_of_ne hx
      simp [this, hx, ih]

/-- A key outside the key column of an association list has no entry. -/
theorem lookup_eq_none_of_not_mem_keys {β : Type} {l : List (String × β)} {k : String}
    (h : k ∉ l.map Prod.fst) : l.lookup k = none := by
  induction l with
  | nil => simp
  | cons p rest ih =>
    simp only [List.map_cons, List.mem_cons] at h
    push_neg at h
    have : (k == p.1) = false := beq_false_of_ne h.1
    simp only [List.lookup, this]
    exact ih h.2

/-! ## Claim C4: contingency table construction and odds ratio -/

/-- C4: for every 2x2 table, `shift_zeros=True` with at least one zero
cell adds 0.5 to all four cells, otherwise (no zero cell, or
`shift_zeros=False`) the raw cells are kept; the odds ratio is
`(a*d)/(b*c)` over the stored cells, and for `[[1,2],[3,4]]` with
`shift_zeros=False` it equals `2/3`. -/
theorem T_c4_table2x2 (a b c d : ℚ) :
    ((a = 0 ∨ b = 0 ∨ c = 0 ∨ d = 0) →
      mkTable2x2 a b c d true = ⟨a + 1/2, b + 1/2, c + 1/2, d + 1/2⟩) ∧
    ((a ≠ 0 ∧ b ≠ 0 ∧ c ≠ 0 ∧ d ≠ 0) → mkTable2x2 a b c d true = ⟨a, b, c, d⟩) ∧
    (mkTable2x2 a b c d false = ⟨a, b, c, d⟩) ∧
    (odds_ratio (mkTable2x2 a b c d false) = a * d / (b * c)) ∧
    (odds_ratio (mkTable2x2 1 2 3 4 false) = 2 / 3) := by
  refine ⟨fun h => ?_, fun h => ?_, ?_, ?_, by norm_num [mkTable2x2, odds_ratio]⟩
  · simp [mkTable2x2, h]
  · simp [mkTable2x2, h.1, h.2.1, h.2.2.1, h.2.2.2]
  · simp [mkTable2x2]
  · simp [mkTable2x2, odds_ratio]

/-- Witness for C4 at the concrete tables `[[0,2],[3,4]]` (one zero
cell, shifted) and `[[1,2],[3,4]]` (no zero cell, unshifted). -/
theorem T_c4_table2x2_witness :
    mkTable2x2 0 2 3 4 true = ⟨1/2, 5/2, 7/2, 9/2⟩ ∧
    mkTable2x2 1 2 3 4 true = ⟨1, 2, 3, 4⟩ := by
  constructor
  · have := (T_c4_table2x2 0 2 3 4).1 (Or.inl rfl)
    rw [this]
    norm_num
  · exact (T_c4_table2x2 1 2 3 4).2.1 (by norm_num)

/-! ## Claim C5: background adjustment -/

/-- C5: `adjust_background_sites` rewrites a zero unregulated total to
`min(total_upregulated, total_downregulated) / 2`, leaving the other two
totals unchanged, and leaves the state unchanged when the unregulated
total is non-zero; `(up, down, unreg) = (4, 2, 0)` becomes `(4, 2, 1)`. -/
theorem T_c5_adjust_background (e : EnrichmentTotals) :
    (e.total_unregulated = 0 →
      adjust_background_sites e =
        ⟨e.total_upregulated, e.total_downregulated,
          min e.total_upregulated e.total_downregulated / 2⟩) ∧
    (e.total_unregulated ≠ 0 → adjust_background_sites e = e) ∧
    adjust_background_sites ⟨4, 2, 0⟩ = ⟨4, 2, 1⟩ := by
  refine ⟨fun h => ?_, fun h => ?_, by norm_num [adjust_background_sites]⟩
  · simp [adjust_background_sites, h]
  · simp [adjust_background_sites, h]

/-- Witness for C5 at the zero state `(4, 2, 0)` and a non-zero state
`(4, 2, 5)`. -/
theorem T_c5_adjust_background_witness :
    adjust_background_sites ⟨4, 2, 0⟩ =
      (⟨4, 2, min 4 2 / 2⟩ : EnrichmentTotals) ∧
    adjust_background_sites ⟨4, 2, 5⟩ = (⟨4, 2, 5⟩ : EnrichmentTotals) :=
  ⟨(T_c5_adjust_background ⟨4, 2, 0⟩).1 rfl,
   (T_c5_adjust_background ⟨4, 2, 5⟩).2.1 (by norm_num)⟩

/-! ## Claim C7: classification errors -/

/-- C7 counterexample: `"GRNSLPVQA"` has odd length 9 and no marker, so
it is classified as a central sequence; its middle residue `'L'` makes
classification fail with the unsupported-sequence-type error, not the
unsupported-sequence-format error the claim names (and not the
invalid-sequence error either). -/
theorem T_c7_counterexample :
    get_sequence_object "GRNSLPVQA".data = .error .unsupportedSequenceType ∧
    "GRNSLPVQA".data.length = 9 ∧
    KinexError.unsupportedSequenceType ≠ KinexError.unsupportedSequenceFormat ∧
    KinexError.unsupportedSequenceType ≠ KinexError.invalidSequence := by
  refine ⟨by rfl, by decide, by decide, by decide⟩

/-- C7 amended: a sequence in which neither marker occurs at a positive
position and whose length is odd is classified as central, and when its
middle character (upper-cased) is not S, T or Y the classification fails
with the unsupported-sequence-type error; `"GRNSLPVQA"` is such a
sequence. -/
theorem T_c7_unsupported_type (s : List Char)
    (h1 : ¬ 0 < findSub (sepChars .asterisk) s)
    (h2 : ¬ 0 < findSub (sepChars .ph) s)
    (h3 : s.length % 2 = 1)
    (h4 : upChar (s.getD (s.length / 2) ' ') ∉ (['S', 'T', 'Y'] : List Char)) :
    get_sequence_object s = .error .unsupportedSequenceType := by
  simp only [List.mem_cons, List.mem_singleton] at h4
  push_neg at h4
  simp only [List.getD, List.get?_eq_getElem?] at h4
  unfold get_sequence_object
  rw [if_neg h1, if_neg h2, if_pos h3]
  unfold get_sequence_type
  simp [h4.1, h4.2.1, h4.2.2.1]

/-- Witness for C7 at `"GRNSLPVQA"`. -/
theorem T_c7_unsupported_type_witness :
    get_sequence_object "GRNSLPVQA".data = .error .unsupportedSequenceType :=
  T_c7_unsupported_type "GRNSLPVQA".data (by decide) (by decide) (by decide)
    (by decide)

/-! ## Claim C9: short-sequence rejection -/

/-- C9: any sequence shorter than 3 characters makes `get_score` fail
with the invalid-sequence error, for every combination of the
phospho-priming, favorability and method arguments (the length guard
runs before the method check and before any classification). -/
theorem T_c9_short_sequence (data : KinexData) (sequence : List Char)
    (phospho_priming favorability : Bool) (method : String)
    (h : sequence.length < 3) :
    get_score data sequence phospho_priming favorability method =
      .error .invalidSequence := by
  simp [get_score, h]

/-- Witness for C9: the two-character sequence `"SS"` with an invalid
method name still reports the invalid sequence. -/
theorem T_c9_short_sequence_witness :
    get_score sampleData "SS".data false false "bogus" =
      .error .invalidSequence :=
  T_c9_short_sequence sampleData "SS".data false false "bogus" (by decide)

/-! ## Claim C10: case-insensitivity without phospho-priming -/

/-- C10: with `phospho_priming=False`, `get_score` upper-cases its input
before classification, validation and scoring, so a sequence and its
upper-cased form produce identical results (including identical
errors). -/
theorem T_c10_upper_invariant (data : KinexData) (sequence : List Char)
    (favorability : Bool) (method : String) :
    get_score data sequence false favorability method =
      get_score data (pyUpper sequence) false favorability method := by
  unfold get_score
  rw [pyUpper_length, pyUpper_idem]
  simp

/-! ## Claim C1: percentile formula, range and monotonicity -/

/-- C1 counterexample: against the sorted one-entry reference
distribution `[0]`, the log2 score `1` gets percentile
`(bisect_left + 1) * 100 / 1 = 200`, outside the claimed range
`(0, 100]`. -/
theorem T_c1_counterexample :
    List.Sorted (· ≤ ·) [(0 : ℚ)] ∧
    get_percentile [(0 : ℚ)] 1 1 = 200 ∧
    ¬ get_percentile [(0 : ℚ)] 1 1 ≤ 100 := by
  refine ⟨by simp, by norm_num [get_percentile, bisect_left], ?_⟩
  norm_num [get_percentile, bisect_left]

/-- C1 amended: against a non-empty ascending-sorted reference
distribution of length `n`, the percentile equals
`(leftmost insertion index + 1) * 100 / n`; it is strictly positive, at
most `100 + 100/n`, at most `100` whenever the log2 score does not
exceed every reference entry, and monotonically non-decreasing in the
log2 score. -/
theorem T_c1_percentile (ref : List ℚ) (n : ℕ) (x y : ℚ)
    (hn : n = ref.length) (hne : ref ≠ [])
    (hs : List.Sorted (· ≤ ·) ref) :
    get_percentile ref n x = ((bisect_left ref x : ℚ) + 1) * 100 / (n : ℚ) ∧
    0 < get_percentile ref n x ∧
    get_percentile ref n x ≤ 100 + 100 / (n : ℚ) ∧
    ((∃ m ∈ ref, x ≤ m) → get_percentile ref n x ≤ 100) ∧
    (x ≤ y → get_percentile ref n x ≤ get_percentile ref n y) := by
  have hnpos : 0 < n := by
    rw [hn]
    exact List.length_pos.mpr hne
  have hnq : (0 : ℚ) < (n : ℚ) := by exact_mod_cast hnpos
  have hstep : (0 : ℚ) < 100 / (n : ℚ) := by positivity
  have hcle : bisect_left ref x ≤ n := by
    rw [hn]
    exact List.countP_le_length _
  refine ⟨(mul_div_assoc _ _ _).symm, ?_, ?_, ?_, ?_⟩
  · exact mul_pos (by positivity) hstep
  · unfold get_percentile
    calc ((bisect_left ref x : ℚ) + 1) * (100 / (n : ℚ))
        ≤ ((n : ℚ) + 1) * (100 / (n : ℚ)) := by
          apply mul_le_mul_of_nonneg_right _ (le_of_lt hstep)
          have : ((bisect_left ref x : ℚ)) ≤ (n : ℚ) := by exact_mod_cast hcle
          linarith
      _ = 100 + 100 / (n : ℚ) := by field_simp; ring
  · rintro ⟨m, hm, hxm⟩
    have hlt : bisect_left ref x < ref.length := by
      unfold bisect_left
      refine lt_of_le_of_ne (List.countP_le_length _) (fun heq => ?_)
      have hmx := List.countP_eq_length.mp heq m hm
      simp only [decide_eq_true_eq] at hmx
      exact absurd hmx (not_lt.mpr hxm)
    have hsucc : (bisect_left ref x : ℚ) + 1 ≤ (n : ℚ) := by
      have : bisect_left ref x + 1 ≤ n := by omega
      exact_mod_cast this
    unfold get_percentile
    calc ((bisect_left ref x : ℚ) + 1) * (100 / (n : ℚ))
        ≤ (n : ℚ) * (100 / (n : ℚ)) :=
          mul_le_mul_of_nonneg_right hsucc (le_of_lt hstep)
      _ = 100 := by field_simp
  · intro hxy
    unfold get_percentile
    apply mul_le_mul_of_nonneg_right _ (le_of_lt hstep)
    have hmono : bisect_left ref x ≤ bisect_left ref y :=
      List.countP_mono_left (fun a _ ha => by
        simp only [decide_eq_true_eq] at ha ⊢
        exact lt_of_lt_of_le ha hxy)
    have : (bisect_left ref x : ℚ) ≤ (bisect_left ref y : ℚ) := by
      exact_mod_cast hmono
    linarith

/-- Witness for C1 against the sorted reference `[0, 1]` with log2
scores `1/2 ≤ 3/4`, both below the largest reference entry. -/
theorem T_c1_percentile_witness :
    0 < get_percentile [(0 : ℚ), 1] 2 (1/2) ∧
    get_percentile [(0 : ℚ), 1] 2 (1/2) ≤ 100 ∧
    get_percentile [(0 : ℚ), 1] 2 (1/2) ≤ get_percentile [(0 : ℚ), 1] 2 (3/4) :=
  ⟨(T_c1_percentile [(0 : ℚ), 1] 2 (1/2) (3/4) (by norm_num) (by simp)
      (by norm_num [List.Sorted])).2.1,
   (T_c1_percentile [(0 : ℚ), 1] 2 (1/2) (3/4) (by norm_num) (by simp)
      (by norm_num [List.Sorted])).2.2.2.1 ⟨1, by norm_num, by norm_num⟩,
   (T_c1_percentile [(0 : ℚ), 1] 2 (1/2) (3/4) (by norm_num) (by simp)
      (by norm_num [List.Sorted])).2.2.2.2 (by norm_num)⟩

/-! ## Claim C6: `avg` aggregation -/

theorem mem_unionKeys {k : String} {k1 k2 : List String} :
    k ∈ unionKeys k1 k2 ↔ k ∈ k1 ∨ k ∈ k2 := by
  simp only [unionKeys, List.mem_append, List.mem_filter, decide_not,
    Bool.not_eq_true', decide_eq_false_iff_not, List.contains,
    List.elem_iff]
  tauto

theorem lookup0_dfAdd (t1 t2 : ScoreTable) (k : String) :
    lookup0 (dfAdd t1 t2) k = lookup0 t1 k + lookup0 t2 k := by
  unfold dfAdd
  by_cases hk : k ∈ unionKeys (t1.map Prod.fst) (t2.map Prod.fst)
  · unfold lookup0
    rw [lookup_map_self, if_pos hk]
    rfl
  · have hk1 : k ∉ t1.map Prod.fst := fun h => hk (mem_unionKeys.mpr (Or.inl h))
    have hk2 : k ∉ t2.map Prod.fst := fun h => hk (mem_unionKeys.mpr (Or.inr h))
    unfold lookup0
    rw [lookup_map_self, if_neg hk, lookup_eq_none_of_not_mem_keys hk1,
      lookup_eq_none_of_not_mem_keys hk2]
    simp

theorem lookup0_foldl_dfAdd (ts : List ScoreTable) (acc : ScoreTable) (k : String) :
    lookup0 (ts.foldl dfAdd acc) k =
      lookup0 acc k + (ts.map (fun t => lookup0 t k)).sum := by
  induction ts generalizing acc with
  | nil => simp
  | cons t rest ih =>
    simp only [List.foldl_cons, List.map_cons, List.sum_cons]
    rw [ih, lookup0_dfAdd]
    ring

theorem lookup0_dfDiv (t : ScoreTable) (n : ℚ) (k : String) :
    lookup0 (dfDiv t n) k = lookup0 t k / n := by
  induction t with
  | nil => simp [dfDiv, lookup0]
  | cons p rest ih =>
    simp only [dfDiv, List.map_cons] at ih ⊢
    unfold lookup0 at ih ⊢
    by_cases hk : (k == p.1)
    · simp [List.lookup, hk]
    · simp only [List.lookup, hk]
      exact ih

theorem keys_dfAdd (t1 t2 : ScoreTable) :
    (dfAdd t1 t2).map Prod.fst = unionKeys (t1.map Prod.fst) (t2.map Prod.fst) := by
  simp [dfAdd, List.map_map, Function.comp_def]

theorem keys_dfDiv (t : ScoreTable) (n : ℚ) :
    (dfDiv t n).map Prod.fst = t.map Prod.fst := by
  simp [dfDiv, List.map_map, Function.comp_def]

theorem mem_keys_foldl_dfAdd (ts : List ScoreTable) (acc : ScoreTable) (k : String) :
    k ∈ (ts.foldl dfAdd acc).map Prod.fst ↔
      k ∈ acc.map Prod.fst ∨ ∃ t ∈ ts, k ∈ t.map Prod.fst := by
  induction ts generalizing acc with
  | nil => simp
  | cons t rest ih =>
    simp only [List.foldl_cons, ih, keys_dfAdd, mem_unionKeys, List.mem_cons]
    constructor
    · rintro (⟨h | h⟩ | ⟨u, hu, hk⟩)
      · exact Or.inl h
      · exact Or.inr ⟨t, Or.inl rfl, h⟩
      · exact Or.inr ⟨u, Or.inr hu, hk⟩
    · rintro (h | ⟨u, hu | hu, hk⟩)
      · exact Or.inl (Or.inl h)
      · exact Or.inl (Or.inr (hu ▸ hk))
      · exact Or.inr ⟨u, hu, hk⟩

/-- C6 counterexample: averaging the two candidate tables
`[("K", 2)]` and `[]` (the second missing kinase `"K"`) yields `1`,
the sum divided by the number of candidate tables (2), not `2`, the
mean over the candidates that contain the kinase, as the claim states. -/
theorem T_c6_counterexample :
    aggregateAvg [[(("K" : String), (2 : ℚ))], []] = [(("K" : String), (1 : ℚ))] ∧
    lookup0 (aggregateAvg [[(("K" : String), (2 : ℚ))], []]) "K" ≠ 2 := by
  constructor
  · show dfDiv (dfAdd [(("K" : String), (2 : ℚ))] []) 2 = [(("K" : String), (1 : ℚ))]
    norm_num [dfDiv, dfAdd, unionKeys, lookup0, List.lookup]
  · show lookup0 (dfDiv (dfAdd [(("K" : String), (2 : ℚ))] []) 2) "K" ≠ 2
    norm_num [dfDiv, dfAdd, unionKeys, lookup0, List.lookup]

/-- C6 amended: for every non-empty list of candidate score tables, the
`avg` reduction never crashes on missing entries and gives every kinase
the sum of its raw scores — a candidate missing the kinase contributing
zero — divided by the **total number of candidate tables** (not by the
number of candidates containing the kinase); a kinase appears in the
result exactly when some candidate contains it. -/
theorem T_c6_aggregate_avg (tables : List ScoreTable) (k : String)
    (hne : tables ≠ []) :
    lookup0 (aggregateAvg tables) k =
      (tables.map (fun t => lookup0 t k)).sum / (tables.length : ℚ) ∧
    (k ∈ (aggregateAvg tables).map Prod.fst ↔
      ∃ t ∈ tables, k ∈ t.map Prod.fst) := by
  match tables with
  | [] => exact absurd rfl hne
  | t :: rest =>
    constructor
    · show lookup0 (dfDiv (rest.foldl dfAdd t) ((t :: rest).length : ℚ)) k = _
      rw [lookup0_dfDiv, lookup0_foldl_dfAdd]
      simp
    · show k ∈ (dfDiv (rest.foldl dfAdd t) ((t :: rest).length : ℚ)).map Prod.fst ↔ _
      rw [keys_dfDiv, mem_keys_foldl_dfAdd]
      simp

/-- Witness for C6 on the concrete pair of tables from the
counterexample: the average at `"K"` is `(2 + 0) / 2` and `"K"` is a
key of the result. -/
theorem T_c6_aggregate_avg_witness :
    lookup0 (aggregateAvg [[(("K" : String), (2 : ℚ))], []]) "K" =
      (([[(("K" : String), (2 : ℚ))], ([] : ScoreTable)].map
        (fun t => lookup0 t "K")).sum) /
        (([[(("K" : String), (2 : ℚ))], ([] : ScoreTable)].length : ℚ)) ∧
    ("K" : String) ∈ (aggregateAvg [[(("K" : String), (2 : ℚ))], []]).map Prod.fst := by
  have h := T_c6_aggregate_avg [[(("K" : String), (2 : ℚ))], []] "K" (by simp)
  exact ⟨h.1, h.2.mpr ⟨[(("K" : String), (2 : ℚ))], by simp, by simp⟩⟩

/-! ## Claim C8: reindexing of missing kinases -/

/-- C8: after `_reindex_missing_kinases`, every kinase of the full
universe has a row; a kinase absent from the accumulated table gets the
all-zero row, and an existing row keeps its value. -/
theorem T_c8_reindex (all_kinases : List String)
    (table : List (String × EnrichmentRow)) (k : String) :
    (k ∈ all_kinases →
      k ∈ (reindex_missing_kinases all_kinases table).map Prod.fst) ∧
    (k ∈ all_kinases → k ∉ table.map Prod.fst →
      (reindex_missing_kinases all_kinases table).lookup k = some zeroRow) ∧
    (∀ r, table.lookup k = some r →
      (reindex_missing_kinases all_kinases table).lookup k = some r) := by
  unfold reindex_missing_kinases
  have hkeys : ∀ newIndex : List String,
      (newIndex.map (fun k => (k, (table.lookup k).getD zeroRow))).map Prod.fst
        = newIndex := by
    intro newIndex
    simp [List.map_map, Function.comp_def]
  refine ⟨fun hall => ?_, fun hall hnot => ?_, fun r hr => ?_⟩
  · rw [hkeys]
    by_cases hmem : k ∈ table.map Prod.fst
    · exact List.mem_append_left _ hmem
    · refine List.mem_append_right _ ?_
      rw [List.mem_filter]
      refine ⟨hall, ?_⟩
      simp only [decide_not, Bool.not_eq_true', decide_eq_false_iff_not,
        List.contains, List.elem_iff]
      exact hmem
  · rw [lookup_map_self]
    have hmem : k ∈ table.map Prod.fst ++
        all_kinases.filter (fun k => ¬ (table.map Prod.fst).contains k) := by
      refine List.mem_append_right _ ?_
      rw [List.mem_filter]
      refine ⟨hall, ?_⟩
      simp only [decide_not, Bool.not_eq_true', decide_eq_false_iff_not,
        List.contains, List.elem_iff]
      exact hnot
    rw [if_pos hmem, lookup_eq_none_of_not_mem_keys hnot]
    rfl
  · rw [lookup_map_self]
    have hmem : k ∈ table.map Prod.fst :=
      List.mem_map.mpr ⟨(k, r), lookup_mem hr, rfl⟩
    rw [if_pos (List.mem_append_left _ hmem), hr]
    rfl

/-- Witness for C8 with universe `{A, B}` and an accumulated table
containing only `B`: `A` is added with the all-zero row while `B` keeps
its counts. -/
theorem T_c8_reindex_witness :
    ("A" : String) ∈ (reindex_missing_kinases ["A", "B"]
      [("B", (⟨1, 2, 3⟩ : EnrichmentRow))]).map Prod.fst ∧
    (reindex_missing_kinases ["A", "B"]
      [("B", (⟨1, 2, 3⟩ : EnrichmentRow))]).lookup "A" = some zeroRow ∧
    (reindex_missing_kinases ["A", "B"]
      [("B", (⟨1, 2, 3⟩ : EnrichmentRow))]).lookup "B" = some ⟨1, 2, 3⟩ :=
  ⟨(T_c8_reindex ["A", "B"] [("B", ⟨1, 2, 3⟩)] "A").1 (by simp),
   (T_c8_reindex ["A", "B"] [("B", ⟨1, 2, 3⟩)] "A").2.1 (by simp) (by simp),
   (T_c8_reindex ["A", "B"] [("B", ⟨1, 2, 3⟩)] "B").2.2 ⟨1, 2, 3⟩ (by rfl)⟩

/-! ## Claim C3: separator preprocessing -/

/-- A string containing `'['` never validates: `'['` is not an allowed
character. -/
theorem bracket_not_valid (s sep : List Char) (h : '[' ∈ s) :
    is_separator_sequence_valid s sep = false := by
  unfold is_separator_sequence_valid
  have hall : s.all (fun a => a ∈ allowed_characters) = false := by
    cases hc : s.all (fun a => a ∈ allowed_characters) with
    | false => rfl
    | true =>
      have := List.all_eq_true.mp hc '[' h
      simp [allowed_characters] at this
  simp [hall]

/-- The candidate loop of `preprocess_sequence` never appends: every
candidate it builds interpolates a Python list `repr` and therefore
starts with `'['`, which fails character validation. -/
theorem candidate_foldl_id (sep : List Char) (l : List ℕ)
    (acc : List (List Char)) :
    l.foldl (fun acc index =>
      let seq := pyReprStrList (acc.take (index + 1)) ++ sep ++
        pyReprStrList (acc.drop (index + 1))
      if is_separator_sequence_valid seq sep then acc ++ [seq] else acc)
      acc = acc := by
  induction l generalizing acc with
  | nil => rfl
  | cons i rest ih =>
    rw [List.foldl_cons]
    have hmem : '[' ∈ pyReprStrList (acc.take (i + 1)) ++ sep ++
        pyReprStrList (acc.drop (i + 1)) := by
      refine List.mem_append_left _ (List.mem_append_left _ ?_)
      unfold pyReprStrList
      exact List.mem_append_left _ (List.mem_cons_self _ _)
    simp only [bracket_not_valid _ _ hmem, Bool.false_eq_true, if_false]
    exact ih acc

/-- `preprocess_sequence` returns exactly the split fragments (with the
last residue of each non-final fragment lower-cased): no candidate
single-site sequence survives. -/
theorem preprocess_sequence_fragments (s sep : List Char) :
    preprocess_sequence s sep =
      (splitOnSeq sep s).enum.map (fun p =>
        if p.1 ≠ (splitOnSeq sep s).length - 1 then lowerLast p.2 else p.2) := by
  have h := candidate_foldl_id sep
    (List.range (((splitOnSeq sep s).enum.map (fun p =>
      if p.1 ≠ (splitOnSeq sep s).length - 1 then lowerLast p.2 else p.2)).length - 1))
    ((splitOnSeq sep s).enum.map (fun p =>
      if p.1 ≠ (splitOnSeq sep s).length - 1 then lowerLast p.2 else p.2))
  simpa only [preprocess_sequence, List.enum_length] using h

/-- C3: the single-marker sequence `"GRNS*PVQA"` is preprocessed into
the two unmarked fragments `["GRNs", "PVQA"]` — not into one candidate
keeping the marker as the claim states — the marker survives in no
element, `validate_sequence` accepts (the list is non-empty, so the
all-candidates-invalid error cannot fire), and scoring the sequence
succeeds. -/
theorem T_c3_preprocess :
    preprocess_sequence "GRNS*PVQA".data (sepChars .asterisk) =
      ["GRNs".data, "PVQA".data] ∧
    (preprocess_sequence "GRNS*PVQA".data (sepChars .asterisk)).length = 2 ∧
    (∀ cand ∈ preprocess_sequence "GRNS*PVQA".data (sepChars .asterisk),
      '*' ∉ cand) ∧
    validateObj (preprocessObj
      (.separator "GRNS*PVQA".data .asterisk .SER_THR [])) = .ok () ∧
    (get_score sampleData "GRNS*PVQA".data false false "avg").isOk = true := by
  refine ⟨by decide, by decide, by decide, by decide, by rfl⟩

/-! ## Claim C2: token windows and token order -/

theorem le_fst_of_mem_enumFrom {α : Type} {p : ℕ × α} {l : List α} {n : ℕ}
    (h : p ∈ l.enumFrom n) : n ≤ p.1 := by
  induction l generalizing n with
  | nil => simp at h
  | cons c rest ih =>
    rw [List.enumFrom_cons] at h
    rcases List.mem_cons.mp h with h1 | h2
    · rw [h1]
    · exact Nat.le_of_succ_le (ih h2)

theorem pairwise_fst_lt_enumFrom {α : Type} (n : ℕ) (l : List α) :
    List.Pairwise (fun p q : ℕ × α => p.1 < q.1) (l.enumFrom n) := by
  induction l generalizing n with
  | nil => simp
  | cons c rest ih =>
    rw [List.enumFrom_cons]
    exact List.Pairwise.cons
      (fun q hq => Nat.lt_of_succ_le (le_fst_of_mem_enumFrom hq)) (ih (n + 1))

/-- Every token emitted by one part of `get_columns_list` carries a
position inside the window. -/
theorem mem_tokensOfPart_bounds {pid : ℕ} {r : Int × Int} {part : List Char}
    {tok : Int × Char} (h : tok ∈ tokensOfPart pid r part) :
    r.1 ≤ tok.1 ∧ tok.1 ≤ r.2 := by
  unfold tokensOfPart at h
  rcases List.mem_filterMap.mp h with ⟨p, _, hf⟩
  by_cases hskip : p.2 = '_' ∨ p.2 = 'X'
  · simp [hskip] at hf
  · simp only [hskip, if_false] at hf
    generalize hpos : (if pid = 0 then -((p.1 : Int) + 1) else (p.1 : Int) + 1) = posv at hf
    split_ifs at hf with hr
    cases hf
    exact hr

/-- The tokens of part 0 (the reversed N-terminal half) appear in
strictly descending position order. -/
theorem tokensOfPart_zero_desc (r : Int × Int) (part : List Char) :
    List.Pairwise (fun x y : Int × Char => y.1 < x.1)
      (tokensOfPart 0 r part) := by
  unfold tokensOfPart
  refine List.Pairwise.filterMap _ (fun a b hab x hx y hy => ?_)
    (pairwise_fst_lt_enumFrom 0 _)
  simp only [Option.mem_def, eq_self_iff_true, if_true] at hx hy
  by_cases hsa : a.2 = '_' ∨ a.2 = 'X'
  · simp [hsa] at hx
  · by_cases hsb : b.2 = '_' ∨ b.2 = 'X'
    · simp [hsb] at hy
    · simp only [hsa, hsb, if_false] at hx hy
      split_ifs at hx with hra
      split_ifs at hy with hrb
      cases hx
      cases hy
      simp only
      omega

/-- The tokens of every later part appear in strictly ascending
position order. -/
theorem tokensOfPart_succ_asc (pid : ℕ) (hpid : pid ≠ 0) (r : Int × Int)
    (part : List Char) :
    List.Pairwise (fun x y : Int × Char => x.1 < y.1)
      (tokensOfPart pid r part) := by
  unfold tokensOfPart
  refine List.Pairwise.filterMap _ (fun a b hab x hx y hy => ?_)
    (pairwise_fst_lt_enumFrom 0 _)
  simp only [Option.mem_def, hpid, if_false] at hx hy
  by_cases hsa : a.2 = '_' ∨ a.2 = 'X'
  · simp [hsa] at hx
  · by_cases hsb : b.2 = '_' ∨ b.2 = 'X'
    · simp [hsb] at hy
    · simp only [hsa, hsb, if_false] at hx hy
      split_ifs at hx with hra
      split_ifs at hy with hrb
      cases hx
      cases hy
      simp only
      omega

/-- C2 counterexample: on the valid central sequence `"APQATPQPA"`
(from the package's own unit tests) `get_columns_list` emits
`[-1A, -2Q, -3P, -4A, 1P, 2Q, 3P, 4A]`: the N-terminal tokens descend
from −1, so the list is **not** sorted by ascending numeric position. -/
theorem T_c2_counterexample :
    is_central_sequence_valid "APQATPQPA".data = true ∧
    get_columns_list .SER_THR (split_sequence_central "APQATPQPA".data) =
      [(-1, 'A'), (-2, 'Q'), (-3, 'P'), (-4, 'A'),
       (1, 'P'), (2, 'Q'), (3, 'P'), (4, 'A')] ∧
    ¬ List.Sorted (fun x y : Int × Char => x.1 ≤ y.1)
      (get_columns_list .SER_THR (split_sequence_central "APQATPQPA".data)) := by
  refine ⟨by decide, by decide, by decide⟩

/-- C2 amended: every token emitted by `get_columns_list` has its
position inside the kinase family's window, and the token list is the
concatenation of the per-part token lists, in which part 0 (the
N-terminal half) is ordered by strictly **descending** position and
every later part by strictly ascending position — the whole list is not
globally sorted ascending. -/
theorem T_c2_window_order (t : SequenceType) (parts : List (List Char)) :
    (∀ tok ∈ get_columns_list t parts,
      (columnsRange t).1 ≤ tok.1 ∧ tok.1 ≤ (columnsRange t).2) ∧
    (∀ part : List Char,
      List.Pairwise (fun x y : Int × Char => y.1 < x.1)
        (tokensOfPart 0 (columnsRange t) part)) ∧
    (∀ (pid : ℕ) (part : List Char), pid ≠ 0 →
      List.Pairwise (fun x y : Int × Char => x.1 < y.1)
        (tokensOfPart pid (columnsRange t) part)) := by
  refine ⟨fun tok htok => ?_, fun part => tokensOfPart_zero_desc _ part,
    fun pid part hpid => tokensOfPart_succ_asc pid hpid _ part⟩
  unfold get_columns_list at htok
  rcases List.mem_flatten.mp htok with ⟨sub, hsub, hmem⟩
  rcases List.mem_map.mp hsub with ⟨p, _, rfl⟩
  exact mem_tokensOfPart_bounds hmem

/-- Witness for C2 on the parts `[['A','C'], ['D']]` of a Ser/Thr
sequence and the emitted token `(-1, 'C')`. -/
theorem T_c2_window_order_witness :
    ((columnsRange SequenceType.SER_THR).1 ≤ ((-1 : Int), 'C').1 ∧
      ((-1 : Int), 'C').1 ≤ (columnsRange SequenceType.SER_THR).2) ∧
    List.Pairwise (fun x y : Int × Char => y.1 < x.1)
      (tokensOfPart 0 (columnsRange SequenceType.SER_THR) ['A', 'C']) ∧
    List.Pairwise (fun x y : Int × Char => x.1 < y.1)
      (tokensOfPart 1 (columnsRange SequenceType.SER_THR) ['D']) :=
  ⟨(T_c2_window_order SequenceType.SER_THR [['A', 'C'], ['D']]).1
      ((-1 : Int), 'C') (by decide),
   (T_c2_window_order SequenceType.SER_THR [['A', 'C'], ['D']]).2.1 ['A', 'C'],
   (T_c2_window_order SequenceType.SER_THR [['A', 'C'], ['D']]).2.2 1 ['D']
      (by decide)⟩

end Kinex
